import Mathlib

/-!
Verification of the masked-region speech-editing controller
(`tasks/tts/a3t.py`, class `A3TTask`) against its specification.

Tensors are shallowly embedded as nested lists of rationals:
a mel-spectrogram batch is `batch × time × channel`
(`Tensor3`), a per-frame mask is `batch × time` (`Tensor2`, the
source applies `[:, :, None]` so it broadcasts over channels).
-/

namespace A3T

abbrev Tensor1 := List ℚ
abbrev Tensor2 := List (List ℚ)
abbrev Tensor3 := List (List (List ℚ))

/-- Element getter for a 2-D tensor, default 0 out of range. -/
def at2 (x : Tensor2) (b t : ℕ) : ℚ := (x.getD b []).getD t 0

/-- Element getter for a 3-D tensor, default 0 out of range. -/
def at3 (x : Tensor3) (b t c : ℕ) : ℚ := ((x.getD b []).getD t []).getD c 0

/-- Scale one channel row by a mask value. -/
def rowScale (mv : ℚ) (row : List ℚ) : List ℚ := row.map (fun a => a * mv)

/-- One batch row of the broadcast multiplication: each time frame's channel
vector is scaled by that frame's mask value. -/
def bmulRow (xb : List (List ℚ)) (mb : List ℚ) : List (List ℚ) :=
  List.zipWith (fun row mv => rowScale mv row) xb mb

/-- Broadcast multiplication `x * m` of a `batch × time × channel` tensor by a
`batch × time` mask expanded over the channel dimension, as in the source's
`output * time_mel_masks` with `time_mel_masks = sample['time_mel_masks'][:, :, None]`. -/
def bmul (x : Tensor3) (m : Tensor2) : Tensor3 := List.zipWith bmulRow x m

/-- `1 - m` on one mask row. -/
def oneSubRow (r : List ℚ) : List ℚ := r.map (fun a => 1 - a)

/-- `1 - m` elementwise on a mask, as in the source's `(1-time_mel_masks)`. -/
def oneSub (m : Tensor2) : Tensor2 := m.map oneSubRow

def addVec (a b : List ℚ) : List ℚ := List.zipWith (· + ·) a b

def addMat (a b : List (List ℚ)) : List (List ℚ) := List.zipWith addVec a b

/-- Elementwise addition of two `batch × time × channel` tensors. -/
def tadd (a b : Tensor3) : Tensor3 := List.zipWith addMat a b

/-- The mask compositing rule used by `run_model` on both branches:
`predicted * mask + ground_truth * (1 - mask)` (source lines 73 and 88). -/
def composite (p g : Tensor3) (m : Tensor2) : Tensor3 :=
  tadd (bmul p m) (bmul g (oneSub m))

/-- Shift every element of a 3-D tensor by a constant. -/
def tshift (c : ℚ) (x : Tensor3) : Tensor3 := x.map (List.map (List.map (fun a => a + c)))


/-- Channel-count agreement for two mel matrices of equal time extent. -/
def matShapeEq : List (List ℚ) → List (List ℚ) → Bool
  | [], [] => true
  | u :: us, v :: vs => (u.length == v.length) && matShapeEq us vs
  | _, _ => false

/-- Shape equality of two 3-D tensors. -/
def shape3Eq : Tensor3 → Tensor3 → Bool
  | [], [] => true
  | x :: xs, y :: ys => matShapeEq x y && shape3Eq xs ys
  | _, _ => false

/-- Shape compatibility between a `batch × time × channel` tensor and a
`batch × time` mask: same batch count and, rowwise, same time count. -/
def maskFits : Tensor3 → Tensor2 → Bool
  | [], [] => true
  | xb :: xs, mb :: ms => (xb.length == mb.length) && maskFits xs ms
  | _, _ => false

/-- The mask is zero everywhere. -/
def allZero2 (m : Tensor2) : Bool := m.all (fun r => r.all (fun v => v == 0))

/-- The mask is one everywhere. -/
def allOne2 (m : Tensor2) : Bool := m.all (fun r => r.all (fun v => v == 1))

/-- A torch tensor as seen by the controller: payload plus the autograd
`requires_grad` flag.  Operations on a tracked tensor produce tracked
tensors (torch autograd propagation). -/
structure TTensor where
  data : Tensor3
  requiresGrad : Bool

/-- A value stored in a loss/logging record: a 0-dim tensor (with its
`requires_grad` flag) or a plain Python scalar.  `_training_step` filters on
`isinstance(v, torch.Tensor) and v.requires_grad`. -/
inductive LVal where
  | tensor (val : ℚ) (requiresGrad : Bool)
  | scalar (val : ℚ)
deriving DecidableEq

def LVal.value : LVal → ℚ
  | .tensor v _ => v
  | .scalar v => v

/-- `isinstance(v, torch.Tensor) and v.requires_grad`. -/
def LVal.isGradTensor : LVal → Bool
  | .tensor _ g => g
  | .scalar _ => false

/-- Loss records are Python dicts with insertion order; embedded as
association lists. -/
abbrev LossRecord := List (String × LVal)

/-- One collated batch, with the fields `A3TTask` reads from `sample`. -/
structure Sample where
  txt_tokens : List (List ℤ)
  txt_lengths : List ℚ
  mel_lengths : List ℚ
  mels : Tensor3
  mel2ph : List (List ℤ)
  time_mel_masks : Tensor2
  pitch : Option Tensor2
  spk_embed : Option Tensor2
  spk_ids : Option (List ℤ)
  text : List (Option (List Char))
  item_name : List (List Char)

/-- The argument tuple `run_model` passes to the external model `self.model`. -/
structure ModelCall where
  txt_tokens : List (List ℤ)
  mel2ph : List (List ℤ)
  pitch : Option Tensor2
  spk_embed : Option Tensor2
  spk_id : Option (List ℤ)
  mels : Tensor3
  stutter_mel_masks : Option Tensor2
  time_mel_masks : Tensor2
  inferFlag : Bool
  global_step : Option ℕ

/-- What the external model returns in training mode: a decoder-stage and a
postnet-stage spectrogram estimate. -/
structure TrainModelOut where
  mel_out_decoder : TTensor
  mel_out_postnet : TTensor

/-- What the external model returns in inference mode: a final spectrogram
estimate and, optionally, an attention map. -/
structure InferModelOut where
  mel_out : TTensor
  attn : Option Tensor3

/-- The external acoustic model (excluded from the core, §1 of the spec):
one callable whose output record depends on the `infer` flag. -/
structure Model where
  runTrain : ModelCall → TrainModelOut
  runInfer : ModelCall → InferModelOut

/-- The arguments of the `infer=False` model invocation (source lines 59-69). -/
def trainCall (sample : Sample) (globalStep : ℕ) : ModelCall :=
  { txt_tokens := sample.txt_tokens
    mel2ph := sample.mel2ph
    pitch := sample.pitch
    spk_embed := sample.spk_embed
    spk_id := sample.spk_ids
    mels := sample.mels
    stutter_mel_masks := none
    time_mel_masks := sample.time_mel_masks
    inferFlag := false
    global_step := some globalStep }

/-- The arguments of the `infer=True` model invocation (source lines 77-87). -/
def inferCall (sample : Sample) : ModelCall :=
  { txt_tokens := sample.txt_tokens
    mel2ph := sample.mel2ph
    pitch := sample.pitch
    spk_embed := sample.spk_embed
    spk_id := sample.spk_ids
    mels := sample.mels
    stutter_mel_masks := none
    time_mel_masks := sample.time_mel_masks
    inferFlag := true
    global_step := none }

/-- Sum of squared differences of two channel rows (truncating to the common
extent, as elementwise torch ops assume equal shapes). -/
def sseVec (a b : List ℚ) : ℚ := (List.zipWith (fun x y => (x - y) ^ 2) a b).sum

def sseMat (a b : List (List ℚ)) : ℚ := (List.zipWith sseVec a b).sum

def sse (a b : Tensor3) : ℚ := (List.zipWith sseMat a b).sum

/-- Number of elements of a 3-D tensor. -/
def numel (a : Tensor3) : ℚ := ((a.map (fun mat => (mat.map (fun r => (r.length : ℚ))).sum)).sum)

/-- Modelled from the spec: the mel-reconstruction loss computed by
`add_mel_loss`, inherited from `FastSpeechTask` and not part of this excerpt
("compute a mel-reconstruction loss between `predicted ⊙ mask` and
`ground_truth ⊙ mask`").  Modelled as the mean of elementwise squared
differences. -/
def melLossVal (a b : Tensor3) : ℚ := sse a b / numel a

/-- Modelled from the spec: `add_mel_loss` records the stage's
mel-reconstruction loss "under a stage-qualified name".  The ground-truth
side carries no gradient, so the loss tensor tracks gradients exactly when
the prediction does. -/
def add_mel_loss (pred : TTensor) (tgt : Tensor3) (losses : LossRecord)
    (sfx : String) : LossRecord :=
  losses ++ [("mel" ++ sfx, LVal.tensor (melLossVal pred.data tgt) pred.requiresGrad)]

/-- `predicted * time_mel_masks` on a tracked tensor (broadcasting over the
channel dimension); autograd keeps the tracking flag. -/
def TTensor.maskMul (x : TTensor) (m : Tensor2) : TTensor :=
  ⟨bmul x.data m, x.requiresGrad⟩

/-- Output record of `run_model` on the training branch: the model's two
estimates plus the composited `mel_out` added at source line 73. -/
structure TrainRunOut where
  mel_out_decoder : TTensor
  mel_out_postnet : TTensor
  mel_out : TTensor

/-- Output record of `run_model` on the inference branch, after `mel_out` is
overwritten by the composited spectrogram at source line 88. -/
structure InferRunOut where
  mel_out : TTensor
  attn : Option Tensor3

/-- `A3TTask.run_model` with `infer=False` (source lines 52-75): call the
model, record the two stage losses over the masked region, and composite
`mel_out = mel_out_postnet * time_mel_masks + mels * (1-time_mel_masks)`. -/
def run_model_train (model : Model) (globalStep : ℕ) (sample : Sample) :
    LossRecord × TrainRunOut :=
  let time_mel_masks := sample.time_mel_masks
  let output := model.runTrain (trainCall sample globalStep)
  let losses : LossRecord := []
  let losses := add_mel_loss (output.mel_out_decoder.maskMul time_mel_masks)
    (bmul sample.mels time_mel_masks) losses "_decoder"
  let losses := add_mel_loss (output.mel_out_postnet.maskMul time_mel_masks)
    (bmul sample.mels time_mel_masks) losses "_postnet"
  let mel_out : TTensor :=
    ⟨tadd (bmul output.mel_out_postnet.data time_mel_masks)
        (bmul sample.mels (oneSub time_mel_masks)),
      output.mel_out_postnet.requiresGrad⟩
  (losses, ⟨output.mel_out_decoder, output.mel_out_postnet, mel_out⟩)

/-- `A3TTask.run_model` with `infer=True` (source lines 76-89): call the
model and overwrite `mel_out` with
`mel_out * time_mel_masks + mels * (1-time_mel_masks)`. -/
def run_model_infer (model : Model) (sample : Sample) : InferRunOut :=
  let time_mel_masks := sample.time_mel_masks
  let output := model.runInfer (inferCall sample)
  ⟨⟨tadd (bmul output.mel_out.data time_mel_masks)
      (bmul sample.mels (oneSub time_mel_masks)),
    output.mel_out.requiresGrad⟩, output.attn⟩

/-- The weighted-sum aggregation of `_training_step` (source line 48):
`sum(loss_weights.get(k, 1) * v for k, v in loss_output.items()
if isinstance(v, Tensor) and v.requires_grad)`. -/
def totalLoss (loss_weights : List (String × ℚ)) (loss_output : LossRecord) : ℚ :=
  ((loss_output.filter (fun kv => kv.2.isGradTensor)).map
    (fun kv => (match loss_weights.lookup kv.1 with
                | some w => w
                | none => 1) * kv.2.value)).sum

/-- `A3TTask._training_step` (source lines 39-50).  `loss_weights` is the
empty dict; the result is the total differentiable loss and the loss record
with `batch_size` appended.  The `Except` wrapper records that Python code
may raise; this body never does. -/
def trainingStep (model : Model) (globalStep : ℕ) (sample : Sample) :
    Except String (ℚ × LossRecord) :=
  let loss_weights : List (String × ℚ) := []
  let (loss_output, _model_out) := run_model_train model globalStep sample
  let total_loss := totalLoss loss_weights loss_output
  Except.ok (total_loss,
    loss_output ++ [("batch_size", LVal.scalar (sample.txt_tokens.length : ℚ))])

/-- The specification's aggregation rule, stated in its own words (for the
refinement comparison of claim C3): every entry of the loss record
contributes its weight (default 1) times its value when it is a
gradient-tracking tensor, and contributes nothing otherwise. -/
def specTotalLoss (weights : List (String × ℚ)) (r : LossRecord) : ℚ :=
  (r.map (fun kv =>
    if kv.2.isGradTensor then ((weights.lookup kv.1).getD 1) * kv.2.value else 0)).sum

/-- A small concrete batch: one item, two mel frames, one channel, edit
mask `[0, 1]`. -/
def exSample : Sample :=
  { txt_tokens := [[5, 3]]
    txt_lengths := [2]
    mel_lengths := [2]
    mels := [[[1], [1]]]
    mel2ph := [[1, 2]]
    time_mel_masks := [[0, 1]]
    pitch := none
    spk_embed := none
    spk_ids := none
    text := [some ("hi there".toList)]
    item_name := ["item1".toList] }

/-- The same batch with an all-zero edit mask. -/
def exZeroSample : Sample := { exSample with time_mel_masks := [[0, 0]] }

/-- A concrete external model producing constant spectrograms whose outputs
track gradients. -/
def exModel : Model :=
  { runTrain := fun _ => ⟨⟨[[[9], [9]]], true⟩, ⟨[[[9], [9]]], true⟩⟩
    runInfer := fun _ => ⟨⟨[[[9], [9]]], true⟩, none⟩ }

/-- A frozen model: no output tracks gradients — the misconfiguration
scenario of §7 of the spec. -/
def exNoGradModel : Model :=
  { runTrain := fun _ => ⟨⟨[[[9], [9]]], false⟩, ⟨[[[9], [9]]], false⟩⟩
    runInfer := fun _ => ⟨⟨[[[9], [9]]], false⟩, none⟩ }

/-- `A3TTask.on_after_optimization` (source lines 143-145): the epoch index
passed to `self.scheduler[0].step`, namely
`self.global_step // hparams['accumulate_grad_batches']`.  The torch
scheduler contract (`step(epoch)` places the schedule at position `epoch`)
is modelled from the spec, since `build_scheduler` is inherited from
`FastSpeechTask` and not part of this excerpt. -/
def on_after_optimization (globalStep accumulate_grad_batches : ℕ) : ℕ :=
  globalStep / accumulate_grad_batches

/-- Modelled from the spec: the outer training loop ("a single attached
learning-rate schedule stepped once per optimizer update") calls the hook
once per raw optimizer call with `global_step` counting those calls; the
schedule's position after `n` raw calls is the one set by the `n`-th hook
invocation (position 0 before any call). -/
def schedAfter (k : ℕ) : ℕ → ℕ
  | 0 => 0
  | n + 1 => on_after_optimization (n + 1) k

/-- The three externally supplied alignment metric functions (spec §4.3):
each maps an attention map and the relevant masks to a per-row score
tensor; `get_diagonal_focus_rate` also returns the diagonal band mask. -/
structure AttnMetrics where
  get_focus_rate : Tensor3 → List (List Bool) → List (List Bool) → List ℚ
  get_phone_coverage_rate :
    Tensor3 → List (List Bool) → List (List Bool) → List (List Bool) → List ℚ
  get_diagonal_focus_rate :
    Tensor3 → List ℚ → List ℚ → List (List Bool) → List (List Bool) → (List ℚ × Tensor3)

/-- `sample['txt_tokens'].eq(0)`: source-side padding mask. -/
def srcPaddingMask (sample : Sample) : List (List Bool) :=
  sample.txt_tokens.map (List.map (fun t => t == 0))

/-- `sample['mels'].abs().sum(-1).eq(0)`: target-side padding mask (a mel
frame is padding when its absolute channel sum is zero). -/
def targetPaddingMask (sample : Sample) : List (List Bool) :=
  sample.mels.map (List.map (fun row => (row.map (fun v => |v|)).sum == 0))

/-- `sample['txt_tokens'].eq(self.seg_idx)`: source-side segment mask. -/
def srcSegMask (seg_idx : ℤ) (sample : Sample) : List (List Bool) :=
  sample.txt_tokens.map (List.map (fun t => t == seg_idx))

/-- `txt_lengths.float() / mel_lengths.float()`: expected diagonal slope per
batch row. -/
def attnKs (sample : Sample) : List ℚ :=
  List.zipWith (fun a b => a / b) sample.txt_lengths sample.mel_lengths

/-- `.mean()` over a per-row score tensor. -/
def meanQ (l : List ℚ) : ℚ := l.sum / (l.length : ℚ)

/-- `A3TTask.get_attn_stats` (source lines 111-127): compute the padding and
segment masks from batch metadata, invoke the three external metric
functions, and write the batch-averaged focus rate, phone coverage rate and
diagonal focus rate into the logging record.  Each stored value is
`.data`-detached, hence a tensor without gradient tracking; the second
`.mean()` the source applies to the already 0-dim averages is the
identity. -/
def get_attn_stats (metrics : AttnMetrics) (seg_idx : ℤ) (attn : Tensor3)
    (sample : Sample) (logging_outputs : LossRecord) (pfx : String) : LossRecord :=
  let mel_lengths := sample.mel_lengths
  let src_padding_mask := srcPaddingMask sample
  let target_padding_mask := targetPaddingMask sample
  let src_seg_mask := srcSegMask seg_idx sample
  let attn_ks := attnKs sample
  let focus_rate := meanQ (metrics.get_focus_rate attn src_padding_mask target_padding_mask)
  let phone_coverage_rate := meanQ
    (metrics.get_phone_coverage_rate attn src_padding_mask src_seg_mask target_padding_mask)
  let dfr_pair := metrics.get_diagonal_focus_rate attn attn_ks mel_lengths
    src_padding_mask target_padding_mask
  let diagonal_focus_rate := meanQ dfr_pair.1
  logging_outputs ++
    [(pfx ++ "fr", LVal.tensor focus_rate false),
     (pfx ++ "pcr", LVal.tensor phone_coverage_rate false),
     (pfx ++ "dfr", LVal.tensor diagonal_focus_rate false)]

/-- Python `str.replace` for a single-character pattern. -/
def pyReplaceChar (c : Char) (rep : List Char) (s : List Char) : List Char :=
  s.flatMap (fun a => if a = c then rep else [a])

/-- Python `%`-formatting of a template whose only conversion specifier is a
single `%s` (as in the source's `base_fn % 'P'`): the first `%s` occurrence
is replaced by `rep`.  A stray `%` elsewhere would make Python's formatting
raise, so this models the format faithfully for percent-free raw text. -/
def formatS (rep : List Char) : List Char → List Char
  | [] => []
  | a :: rest =>
    if a = '%' then
      match rest with
      | 's' :: tail => rep ++ tail
      | _ => a :: formatS rep rest
    else a :: formatS rep rest

def digitChar : ℕ → Char
  | 0 => '0' | 1 => '1' | 2 => '2' | 3 => '3' | 4 => '4'
  | 5 => '5' | 6 => '6' | 7 => '7' | 8 => '8' | _ => '9'

def charToDigit : Char → ℕ
  | '1' => 1 | '2' => 2 | '3' => 3 | '4' => 4 | '5' => 5
  | '6' => 6 | '7' => 7 | '8' => 8 | '9' => 9 | _ => 0

/-- Big-endian decimal digit values of `n`, with explicit fuel so the
definition is structural. -/
def natDigitsVal : ℕ → ℕ → List ℕ
  | 0, _ => []
  | fuel + 1, n => if n < 10 then [n] else natDigitsVal fuel (n / 10) ++ [n % 10]

def natDigits (n : ℕ) : List ℕ := natDigitsVal (n + 1) n

def fromDigitsVal (l : List ℕ) : ℕ := l.foldl (fun acc d => 10 * acc + d) 0

/-- Python `f'{n:06d}'`: decimal digits of `n` left-padded with zeros to
width 6, as characters. -/
def pad6Chars (n : ℕ) : List Char :=
  (List.replicate (6 - (natDigits n).length) 0 ++ natDigits n).map digitChar

/-- The filename template before space replacement (source lines 167-169):
`f'[{batch_idx:06d}][{item_name.replace("%", "_")}][%s]'` followed, when
the text is present, by the colon-sanitized first 80 characters of the
text. -/
def baseFnTemplate (batch_idx : ℕ) (item_name : List Char) (text : Option (List Char)) :
    List Char :=
  ('[' :: pad6Chars batch_idx) ++ (']' :: '[' :: pyReplaceChar '%' ['_'] item_name)
    ++ (']' :: '[' :: '%' :: 's' :: [']'])
    ++ (match text with
        | some t => (pyReplaceChar ':' ("$3A".toList) t).take 80
        | none => [])

/-- The filename template built at source lines 167-170: the template above
with all spaces replaced by underscores
(`base_fn = base_fn.replace(' ', '_')`). -/
def baseFn (batch_idx : ℕ) (item_name : List Char) (text : Option (List Char)) :
    List Char :=
  pyReplaceChar ' ' ['_'] (baseFnTemplate batch_idx item_name text)

/-- One unit of work submitted to `self.saving_result_pool.add_job`
(arguments of `self.save_result`). -/
structure InferenceJob where
  wav : List ℚ
  mel : List (List ℚ)
  base_fn : List Char
  gen_dir : List Char
  str_phs : List Char
  mel2ph : Option (List ℤ)
deriving DecidableEq

/-- The external collaborators and flags `test_step` reads: the `save_gt`
and `save_attn` hparams, the output directory, the vocoder, and the token
decoder (with and without `strip_padding=True`). -/
structure TestEnv where
  save_gt : Bool
  save_attn : Bool
  gen_dir : List Char
  vocoder : List (List ℚ) → List ℚ
  decodeStrip : List ℤ → List Char
  decode : List ℤ → List Char

/-- The description record `test_step` returns for tabulation. -/
structure TestResult where
  item_name : List Char
  text : Option (List Char)
  ph_tokens : List Char
  wav_fn_pred : List Char
  wav_fn_gt : List Char
deriving DecidableEq

/-- `A3TTask.test_step` (source lines 156-189): assert batch size 1, run the
model in inference mode, build the sanitized filename template, submit the
predicted-result job and, when `save_gt` is set, the ground-truth job, and
return the description record (which always carries both filename stems).
Python exceptions (the assertion and `[0]` indexing of empty fields, and the
missing-attention lookup when `save_attn` is set) are the `Except.error`
cases. -/
def test_step (env : TestEnv) (model : Model) (sample : Sample) (batch_idx : ℕ) :
    Except String (TestResult × List InferenceJob) :=
  if sample.txt_tokens.length = 1 then
    let outputs := run_model_infer model sample
    match sample.text.head?, sample.item_name.head?, sample.txt_tokens.head?,
        sample.mels.head?, outputs.mel_out.data.head?, sample.mel2ph.head? with
    | some text, some item_name, some tokens, some mel_gt, some mel_pred, some mel2ph =>
      if env.save_attn ∧ outputs.attn = none then Except.error "attn missing"
      else
        let str_phs := env.decodeStrip tokens
        let base_fn := baseFn batch_idx item_name text
        let wav_pred := env.vocoder mel_pred
        let jobs := [⟨wav_pred, mel_pred, formatS ['P'] base_fn, env.gen_dir, str_phs, none⟩]
        let jobs := if env.save_gt then
          jobs ++ [⟨env.vocoder mel_gt, mel_gt, formatS ['G'] base_fn, env.gen_dir,
            str_phs, some mel2ph⟩]
          else jobs
        Except.ok
          (⟨item_name, text, env.decode tokens, formatS ['P'] base_fn,
            formatS ['G'] base_fn⟩, jobs)
    | _, _, _, _, _, _ => Except.error "IndexError"
  else Except.error "only support batch_size=1 in inference"

/-- A concrete test environment with ground-truth saving disabled. -/
def exEnv : TestEnv :=
  { save_gt := false
    save_attn := false
    gen_dir := "gen".toList
    vocoder := fun mel => mel.map List.sum
    decodeStrip := fun toks => (toks.map (fun t => if t = 0 then 'p' else 'a'))
    decode := fun toks => (toks.map (fun t => if t = 0 then '0' else 'b')) }

/-- A two-item batch (batch size 2), violating the test-time precondition. -/
def exSample2 : Sample := { exSample with txt_tokens := [[5, 3], [2, 1]] }

section ListLemmas

theorem getD_zipWith_of_lt {α β γ : Type} (f : α → β → γ) (a : List α) (b : List β)
    (i : ℕ) (da : α) (db : β) (dc : γ) (ha : i < a.length) (hb : i < b.length) :
    (List.zipWith f a b).getD i dc = f (a.getD i da) (b.getD i db) := by
  induction a generalizing b i with
  | nil => simp at ha
  | cons x xs ih =>
    cases b with
    | nil => simp at hb
    | cons y ys =>
      cases i with
      | zero => simp [List.getD]
      | succ n =>
        simp only [List.zipWith_cons_cons, List.getD_cons_succ]
        exact ih ys n (Nat.lt_of_succ_lt_succ ha) (Nat.lt_of_succ_lt_succ hb)

theorem getD_map_of_lt {α β : Type} (f : α → β) (l : List α) (i : ℕ) (da : α) (db : β)
    (h : i < l.length) : (l.map f).getD i db = f (l.getD i da) := by
  induction l generalizing i with
  | nil => simp at h
  | cons x xs ih =>
    cases i with
    | zero => simp [List.getD]
    | succ n =>
      simp only [List.map_cons, List.getD_cons_succ]
      exact ih n (Nat.lt_of_succ_lt_succ h)

end ListLemmas

section TensorLemmas

theorem length_bmul (x : Tensor3) (m : Tensor2) :
    (bmul x m).length = min x.length m.length := by simp [bmul]

theorem getD_bmul (x : Tensor3) (m : Tensor2) (b : ℕ)
    (hb1 : b < x.length) (hb2 : b < m.length) :
    (bmul x m).getD b [] = bmulRow (x.getD b []) (m.getD b []) := by
  have h := getD_zipWith_of_lt bmulRow x m b [] [] [] hb1 hb2
  simpa using h

theorem length_bmulRow (xb : List (List ℚ)) (mb : List ℚ) :
    (bmulRow xb mb).length = min xb.length mb.length := by simp [bmulRow]

theorem getD_bmulRow (xb : List (List ℚ)) (mb : List ℚ) (t : ℕ)
    (ht1 : t < xb.length) (ht2 : t < mb.length) :
    (bmulRow xb mb).getD t [] = rowScale (mb.getD t 0) (xb.getD t []) := by
  have h := getD_zipWith_of_lt (fun row mv => rowScale mv row) xb mb t [] 0 [] ht1 ht2
  simpa [bmulRow] using h

theorem length_rowScale (mv : ℚ) (row : List ℚ) :
    (rowScale mv row).length = row.length := by simp [rowScale]

theorem getD_rowScale (mv : ℚ) (row : List ℚ) (c : ℕ) (hc : c < row.length) :
    (rowScale mv row).getD c 0 = row.getD c 0 * mv := by
  have h := getD_map_of_lt (fun a => a * mv) row c 0 0 hc
  simpa [rowScale] using h

theorem at3_bmul (x : Tensor3) (m : Tensor2) (b t c : ℕ)
    (hb1 : b < x.length) (hb2 : b < m.length)
    (ht1 : t < (x.getD b []).length) (ht2 : t < (m.getD b []).length)
    (hc : c < ((x.getD b []).getD t []).length) :
    at3 (bmul x m) b t c = at3 x b t c * at2 m b t := by
  unfold at3 at2
  rw [getD_bmul x m b hb1 hb2, getD_bmulRow _ _ t ht1 ht2, getD_rowScale _ _ c hc]

theorem length_oneSub (m : Tensor2) : (oneSub m).length = m.length := by simp [oneSub]

theorem getD_oneSub (m : Tensor2) (b : ℕ) (hb : b < m.length) :
    (oneSub m).getD b [] = oneSubRow (m.getD b []) := by
  have h := getD_map_of_lt oneSubRow m b [] [] hb
  simpa [oneSub] using h

theorem length_oneSubRow (r : List ℚ) : (oneSubRow r).length = r.length := by simp [oneSubRow]

theorem getD_oneSubRow (r : List ℚ) (t : ℕ) (ht : t < r.length) :
    (oneSubRow r).getD t 0 = 1 - r.getD t 0 := by
  have h := getD_map_of_lt (fun a => 1 - a) r t 0 0 ht
  simpa [oneSubRow] using h

theorem at2_oneSub (m : Tensor2) (b t : ℕ)
    (hb : b < m.length) (ht : t < (m.getD b []).length) :
    at2 (oneSub m) b t = 1 - at2 m b t := by
  unfold at2
  rw [getD_oneSub m b hb, getD_oneSubRow _ t ht]

theorem length_tadd (x y : Tensor3) : (tadd x y).length = min x.length y.length := by
  simp [tadd]

theorem getD_tadd (x y : Tensor3) (b : ℕ) (hb1 : b < x.length) (hb2 : b < y.length) :
    (tadd x y).getD b [] = addMat (x.getD b []) (y.getD b []) := by
  have h := getD_zipWith_of_lt addMat x y b [] [] [] hb1 hb2
  simpa [addMat] using h

theorem getD_addMat (x y : List (List ℚ)) (t : ℕ) (ht1 : t < x.length) (ht2 : t < y.length) :
    (addMat x y).getD t [] = addVec (x.getD t []) (y.getD t []) := by
  have h := getD_zipWith_of_lt addVec x y t [] [] [] ht1 ht2
  simpa [addVec] using h

theorem getD_addVec (x y : List ℚ) (c : ℕ) (hc1 : c < x.length) (hc2 : c < y.length) :
    (addVec x y).getD c 0 = x.getD c 0 + y.getD c 0 :=
  getD_zipWith_of_lt (· + ·) x y c 0 0 0 hc1 hc2

theorem at3_tadd (x y : Tensor3) (b t c : ℕ)
    (hb1 : b < x.length) (hb2 : b < y.length)
    (ht1 : t < (x.getD b []).length) (ht2 : t < (y.getD b []).length)
    (hc1 : c < ((x.getD b []).getD t []).length)
    (hc2 : c < ((y.getD b []).getD t []).length) :
    at3 (tadd x y) b t c = at3 x b t c + at3 y b t c := by
  unfold at3
  rw [getD_tadd x y b hb1 hb2, getD_addMat _ _ t ht1 ht2, getD_addVec _ _ c hc1 hc2]

end TensorLemmas

section ShapeLemmas

theorem matShapeEq_length {x y : List (List ℚ)} (h : matShapeEq x y = true) :
    x.length = y.length := by
  induction x generalizing y with
  | nil => cases y with
    | nil => rfl
    | cons v vs => simp [matShapeEq] at h
  | cons u us ih => cases y with
    | nil => simp [matShapeEq] at h
    | cons v vs =>
      simp only [matShapeEq, Bool.and_eq_true] at h
      simpa using ih h.2

theorem matShapeEq_getD {x y : List (List ℚ)} (h : matShapeEq x y = true)
    (t : ℕ) (ht : t < y.length) :
    (x.getD t []).length = (y.getD t []).length := by
  induction x generalizing y t with
  | nil => cases y with
    | nil => simp at ht
    | cons v vs => simp [matShapeEq] at h
  | cons u us ih => cases y with
    | nil => simp [matShapeEq] at h
    | cons v vs =>
      simp only [matShapeEq, Bool.and_eq_true, beq_iff_eq] at h
      cases t with
      | zero => simpa [List.getD] using h.1
      | succ n =>
        simp only [List.getD_cons_succ]
        exact ih h.2 n (by simpa using ht)

theorem shape3Eq_length {x y : Tensor3} (h : shape3Eq x y = true) :
    x.length = y.length := by
  induction x generalizing y with
  | nil => cases y with
    | nil => rfl
    | cons v vs => simp [shape3Eq] at h
  | cons u us ih => cases y with
    | nil => simp [shape3Eq] at h
    | cons v vs =>
      simp only [shape3Eq, Bool.and_eq_true] at h
      simpa using ih h.2

theorem shape3Eq_getD {x y : Tensor3} (h : shape3Eq x y = true)
    (b : ℕ) (hb : b < y.length) :
    matShapeEq (x.getD b []) (y.getD b []) = true := by
  induction x generalizing y b with
  | nil => cases y with
    | nil => simp at hb
    | cons v vs => simp [shape3Eq] at h
  | cons u us ih => cases y with
    | nil => simp [shape3Eq] at h
    | cons v vs =>
      simp only [shape3Eq, Bool.and_eq_true] at h
      cases b with
      | zero => simpa [List.getD] using h.1
      | succ n =>
        simp only [List.getD_cons_succ]
        exact ih h.2 n (by simpa using hb)

theorem maskFits_length {x : Tensor3} {m : Tensor2} (h : maskFits x m = true) :
    x.length = m.length := by
  induction x generalizing m with
  | nil => cases m with
    | nil => rfl
    | cons v vs => simp [maskFits] at h
  | cons u us ih => cases m with
    | nil => simp [maskFits] at h
    | cons v vs =>
      simp only [maskFits, Bool.and_eq_true] at h
      simpa using ih h.2

theorem maskFits_getD {x : Tensor3} {m : Tensor2} (h : maskFits x m = true)
    (b : ℕ) (hb : b < x.length) :
    (x.getD b []).length = (m.getD b []).length := by
  induction x generalizing m b with
  | nil => simp at hb
  | cons u us ih => cases m with
    | nil => simp [maskFits] at h
    | cons v vs =>
      simp only [maskFits, Bool.and_eq_true, beq_iff_eq] at h
      cases b with
      | zero => simpa [List.getD] using h.1
      | succ n =>
        simp only [List.getD_cons_succ]
        exact ih h.2 n (by simpa using hb)

end ShapeLemmas

/-- Pointwise value of the compositing rule, under shape compatibility. -/
theorem at3_composite (p g : Tensor3) (m : Tensor2) (b t c : ℕ)
    (hp : shape3Eq p g = true) (hm : maskFits g m = true)
    (hb : b < g.length) (ht : t < (g.getD b []).length)
    (hc : c < ((g.getD b []).getD t []).length) :
    at3 (composite p g m) b t c
      = at3 p b t c * at2 m b t + at3 g b t c * (1 - at2 m b t) := by
  have hpl := shape3Eq_length hp
  have hml := maskFits_length hm
  have hbp : b < p.length := by omega
  have hbm : b < m.length := by omega
  have hmat := shape3Eq_getD hp b hb
  have htp : t < (p.getD b []).length := by have := matShapeEq_length hmat; omega
  have htm : t < (m.getD b []).length := by have := maskFits_getD hm b hb; omega
  have hcp : c < ((p.getD b []).getD t []).length := by
    have := matShapeEq_getD hmat t ht; omega
  have hbo : b < (oneSub m).length := by rw [length_oneSub]; omega
  have hto : t < ((oneSub m).getD b []).length := by
    rw [getD_oneSub m b hbm, length_oneSubRow]; omega
  unfold composite
  rw [at3_tadd _ _ b t c]
  · rw [at3_bmul p m b t c hbp hbm htp htm hcp,
        at3_bmul g (oneSub m) b t c hb hbo ht hto hc,
        at2_oneSub m b t hbm htm]
  · rw [length_bmul]; omega
  · rw [length_bmul, length_oneSub]; omega
  · rw [getD_bmul p m b hbp hbm, length_bmulRow]; omega
  · rw [getD_bmul g (oneSub m) b hb hbo, length_bmulRow, getD_oneSub m b hbm,
        length_oneSubRow]; omega
  · rw [getD_bmul p m b hbp hbm, getD_bmulRow _ _ t htp htm, length_rowScale]; omega
  · rw [getD_bmul g (oneSub m) b hb hbo, getD_oneSub m b hbm,
        getD_bmulRow _ _ t ht (by rw [length_oneSubRow]; omega), length_rowScale]; omega


section LossLemmas

theorem sseVec_self (a : List ℚ) : sseVec a a = 0 := by
  induction a with
  | nil => simp [sseVec]
  | cons x xs ih =>
    calc sseVec (x :: xs) (x :: xs) = (x - x) ^ 2 + sseVec xs xs := rfl
      _ = 0 := by rw [ih]; ring

theorem sseMat_self (a : List (List ℚ)) : sseMat a a = 0 := by
  induction a with
  | nil => simp [sseMat]
  | cons x xs ih => simp [sseMat] at ih ⊢; simp [sseVec_self, ih]

theorem sse_self (a : Tensor3) : sse a a = 0 := by
  induction a with
  | nil => simp [sse]
  | cons x xs ih => simp [sse] at ih ⊢; simp [sseMat_self, ih]

theorem sseVec_allZero {a b : List ℚ} (ha : ∀ v ∈ a, v = 0) (hb : ∀ v ∈ b, v = 0) :
    sseVec a b = 0 := by
  induction a generalizing b with
  | nil => simp [sseVec]
  | cons x xs ih =>
    cases b with
    | nil => simp [sseVec]
    | cons y ys =>
      have hx : x = 0 := ha x (by simp)
      have hy : y = 0 := hb y (by simp)
      have hr := ih (fun v hv => ha v (List.mem_cons_of_mem _ hv))
        (fun v hv => hb v (List.mem_cons_of_mem _ hv))
      simp [sseVec] at hr ⊢
      simp [hx, hy, hr]

theorem sseMat_allZero {a b : List (List ℚ)}
    (ha : ∀ r ∈ a, ∀ v ∈ r, v = 0) (hb : ∀ r ∈ b, ∀ v ∈ r, v = 0) :
    sseMat a b = 0 := by
  induction a generalizing b with
  | nil => simp [sseMat]
  | cons x xs ih =>
    cases b with
    | nil => simp [sseMat]
    | cons y ys =>
      have h0 := sseVec_allZero (ha x (by simp)) (hb y (by simp))
      have hr := ih (fun r hr => ha r (List.mem_cons_of_mem _ hr))
        (fun r hr => hb r (List.mem_cons_of_mem _ hr))
      simp [sseMat] at hr ⊢
      simp [h0, hr]

theorem sse_allZero {a b : Tensor3}
    (ha : ∀ mat ∈ a, ∀ r ∈ mat, ∀ v ∈ r, v = 0)
    (hb : ∀ mat ∈ b, ∀ r ∈ mat, ∀ v ∈ r, v = 0) :
    sse a b = 0 := by
  induction a generalizing b with
  | nil => simp [sse]
  | cons x xs ih =>
    cases b with
    | nil => simp [sse]
    | cons y ys =>
      have h0 := sseMat_allZero (ha x (by simp)) (hb y (by simp))
      have hr := ih (fun mat hm => ha mat (List.mem_cons_of_mem _ hm))
        (fun mat hm => hb mat (List.mem_cons_of_mem _ hm))
      simp [sse] at hr ⊢
      simp [h0, hr]

theorem allZero2_mem {m : Tensor2} (h : allZero2 m = true) :
    ∀ r ∈ m, ∀ v ∈ r, v = 0 := by
  simpa [allZero2, List.all_eq_true] using h

theorem mem_rowScale_zero (r : List ℚ) : ∀ v ∈ rowScale 0 r, v = 0 := by
  induction r with
  | nil => intro v hv; exact absurd hv (by simp [rowScale])
  | cons x xs ih =>
    intro v hv
    have hcons : rowScale 0 (x :: xs) = (x * 0) :: rowScale 0 xs := rfl
    rw [hcons] at hv
    rcases List.mem_cons.mp hv with h | h
    · rw [h]; ring
    · exact ih v h

theorem mem_bmulRow_zero {xb : List (List ℚ)} {mb : List ℚ}
    (hmb : ∀ v ∈ mb, v = 0) :
    ∀ row ∈ bmulRow xb mb, ∀ v ∈ row, v = 0 := by
  induction xb generalizing mb with
  | nil => simp [bmulRow]
  | cons x xs ih =>
    cases mb with
    | nil => simp [bmulRow]
    | cons mv ms =>
      intro row hrow
      simp only [bmulRow, List.zipWith_cons_cons, List.mem_cons] at hrow
      rcases hrow with h | h
      · have hmv : mv = 0 := hmb mv (by simp)
        subst hmv
        subst h
        exact mem_rowScale_zero x
      · exact ih (fun v hv => hmb v (List.mem_cons_of_mem _ hv)) row h

theorem mem_bmul_zero {x : Tensor3} {m : Tensor2} (hm : allZero2 m = true) :
    ∀ mat ∈ bmul x m, ∀ r ∈ mat, ∀ v ∈ r, v = 0 := by
  have hm' := allZero2_mem hm
  clear hm
  induction x generalizing m with
  | nil => simp [bmul]
  | cons xb xs ih =>
    cases m with
    | nil => simp [bmul]
    | cons mb ms =>
      intro mat hmat
      simp only [bmul, List.zipWith_cons_cons, List.mem_cons] at hmat
      rcases hmat with h | h
      · subst h
        exact mem_bmulRow_zero (hm' mb (by simp))
      · exact ih (fun r hr => hm' r (List.mem_cons_of_mem _ hr)) mat h

theorem melLossVal_eq_zero {a b : Tensor3} (h : sse a b = 0) : melLossVal a b = 0 := by
  simp [melLossVal, h]

end LossLemmas

section CompositeLemmas

theorem addVec_scale01 {pr gr : List ℚ} (h : pr.length = gr.length) :
    addVec (rowScale 0 pr) (rowScale 1 gr) = gr := by
  induction pr generalizing gr with
  | nil =>
    cases gr with
    | nil => rfl
    | cons y ys => simp at h
  | cons x xs ih =>
    cases gr with
    | nil => simp at h
    | cons y ys =>
      calc addVec (rowScale 0 (x :: xs)) (rowScale 1 (y :: ys))
          = (x * 0 + y * 1) :: addVec (rowScale 0 xs) (rowScale 1 ys) := rfl
        _ = y :: ys := by
            rw [ih (by simpa using h)]
            norm_num

theorem addVec_scale10 {pr gr : List ℚ} (h : pr.length = gr.length) :
    addVec (rowScale 1 pr) (rowScale 0 gr) = pr := by
  induction pr generalizing gr with
  | nil =>
    cases gr with
    | nil => rfl
    | cons y ys => simp at h
  | cons x xs ih =>
    cases gr with
    | nil => simp at h
    | cons y ys =>
      calc addVec (rowScale 1 (x :: xs)) (rowScale 0 (y :: ys))
          = (x * 1 + y * 0) :: addVec (rowScale 1 xs) (rowScale 0 ys) := rfl
        _ = x :: xs := by
            rw [ih (by simpa using h)]
            norm_num

theorem addMat_composite_zeroRow {pb gb : List (List ℚ)} {mb : List ℚ}
    (hshape : matShapeEq pb gb = true) (hlen : gb.length = mb.length)
    (hmb : ∀ v ∈ mb, v = 0) :
    addMat (bmulRow pb mb) (bmulRow gb (oneSubRow mb)) = gb := by
  induction pb generalizing gb mb with
  | nil =>
    cases gb with
    | nil => rfl
    | cons y ys => simp [matShapeEq] at hshape
  | cons x xs ih =>
    cases gb with
    | nil => simp [matShapeEq] at hshape
    | cons y ys =>
      cases mb with
      | nil => simp at hlen
      | cons mv ms =>
        simp only [matShapeEq, Bool.and_eq_true, beq_iff_eq] at hshape
        have hmv : mv = 0 := hmb mv (by simp)
        subst hmv
        have hhead : addVec (rowScale 0 x) (rowScale (1 - 0) y) = y := by
          rw [show ((1 : ℚ) - 0) = 1 by norm_num]
          exact addVec_scale01 hshape.1
        have htail := ih hshape.2 (by simpa using hlen)
          (fun v hv => hmb v (List.mem_cons_of_mem _ hv))
        calc addMat (bmulRow (x :: xs) (0 :: ms)) (bmulRow (y :: ys) (oneSubRow (0 :: ms)))
            = addVec (rowScale 0 x) (rowScale (1 - 0) y) ::
                addMat (bmulRow xs ms) (bmulRow ys (oneSubRow ms)) := rfl
          _ = y :: ys := by rw [hhead, htail]

theorem addMat_composite_oneRow {pb gb : List (List ℚ)} {mb : List ℚ}
    (hshape : matShapeEq pb gb = true) (hlen : gb.length = mb.length)
    (hmb : ∀ v ∈ mb, v = 1) :
    addMat (bmulRow pb mb) (bmulRow gb (oneSubRow mb)) = pb := by
  induction pb generalizing gb mb with
  | nil =>
    cases gb with
    | nil => rfl
    | cons y ys => simp [matShapeEq] at hshape
  | cons x xs ih =>
    cases gb with
    | nil => simp [matShapeEq] at hshape
    | cons y ys =>
      cases mb with
      | nil => simp at hlen
      | cons mv ms =>
        simp only [matShapeEq, Bool.and_eq_true, beq_iff_eq] at hshape
        have hmv : mv = 1 := hmb mv (by simp)
        subst hmv
        have hhead : addVec (rowScale 1 x) (rowScale (1 - 1) y) = x := by
          rw [show ((1 : ℚ) - 1) = 0 by norm_num]
          exact addVec_scale10 hshape.1
        have htail := ih hshape.2 (by simpa using hlen)
          (fun v hv => hmb v (List.mem_cons_of_mem _ hv))
        calc addMat (bmulRow (x :: xs) (1 :: ms)) (bmulRow (y :: ys) (oneSubRow (1 :: ms)))
            = addVec (rowScale 1 x) (rowScale (1 - 1) y) ::
                addMat (bmulRow xs ms) (bmulRow ys (oneSubRow ms)) := rfl
          _ = x :: xs := by rw [hhead, htail]

theorem composite_allZero {p g : Tensor3} {m : Tensor2}
    (hshape : shape3Eq p g = true) (hfit : maskFits g m = true)
    (hz : allZero2 m = true) :
    composite p g m = g := by
  have hm' := allZero2_mem hz
  clear hz
  induction p generalizing g m with
  | nil =>
    cases g with
    | nil => rfl
    | cons y ys => simp [shape3Eq] at hshape
  | cons x xs ih =>
    cases g with
    | nil => simp [shape3Eq] at hshape
    | cons y ys =>
      cases m with
      | nil => simp [maskFits] at hfit
      | cons mb ms =>
        simp only [shape3Eq, Bool.and_eq_true] at hshape
        simp only [maskFits, Bool.and_eq_true, beq_iff_eq] at hfit
        have hhead := addMat_composite_zeroRow hshape.1 hfit.1 (hm' mb (by simp))
        have htail := ih hshape.2 hfit.2 (fun r hr => hm' r (List.mem_cons_of_mem _ hr))
        calc composite (x :: xs) (y :: ys) (mb :: ms)
            = addMat (bmulRow x mb) (bmulRow y (oneSubRow mb)) :: composite xs ys ms := rfl
          _ = y :: ys := by rw [hhead, htail]

theorem allOne2_mem {m : Tensor2} (h : allOne2 m = true) :
    ∀ r ∈ m, ∀ v ∈ r, v = 1 := by
  simpa [allOne2, List.all_eq_true] using h

theorem composite_allOne {p g : Tensor3} {m : Tensor2}
    (hshape : shape3Eq p g = true) (hfit : maskFits g m = true)
    (ho : allOne2 m = true) :
    composite p g m = p := by
  have hm' := allOne2_mem ho
  clear ho
  induction p generalizing g m with
  | nil =>
    cases g with
    | nil => rfl
    | cons y ys => simp [shape3Eq] at hshape
  | cons x xs ih =>
    cases g with
    | nil => simp [shape3Eq] at hshape
    | cons y ys =>
      cases m with
      | nil => simp [maskFits] at hfit
      | cons mb ms =>
        simp only [shape3Eq, Bool.and_eq_true] at hshape
        simp only [maskFits, Bool.and_eq_true, beq_iff_eq] at hfit
        have hhead := addMat_composite_oneRow hshape.1 hfit.1 (hm' mb (by simp))
        have htail := ih hshape.2 hfit.2 (fun r hr => hm' r (List.mem_cons_of_mem _ hr))
        calc composite (x :: xs) (y :: ys) (mb :: ms)
            = addMat (bmulRow x mb) (bmulRow y (oneSubRow mb)) :: composite xs ys ms := rfl
          _ = x :: xs := by rw [hhead, htail]

theorem addVec_scale_shift (c mv mw : ℚ) (hmw : mv + mw = 1) (pr gr : List ℚ) :
    addVec (rowScale mv (pr.map (fun a => a + c))) (rowScale mw (gr.map (fun a => a + c)))
      = (addVec (rowScale mv pr) (rowScale mw gr)).map (fun a => a + c) := by
  induction pr generalizing gr with
  | nil => rfl
  | cons x xs ih =>
    cases gr with
    | nil => rfl
    | cons y ys =>
      have hhead : (x + c) * mv + (y + c) * mw = (x * mv + y * mw) + c := by
        linear_combination c * hmw
      calc addVec (rowScale mv ((x :: xs).map (fun a => a + c)))
              (rowScale mw ((y :: ys).map (fun a => a + c)))
          = ((x + c) * mv + (y + c) * mw) ::
              addVec (rowScale mv (xs.map (fun a => a + c)))
                (rowScale mw (ys.map (fun a => a + c))) := rfl
        _ = ((x * mv + y * mw) + c) ::
              (addVec (rowScale mv xs) (rowScale mw ys)).map (fun a => a + c) := by
            rw [hhead, ih ys]
        _ = (addVec (rowScale mv (x :: xs)) (rowScale mw (y :: ys))).map
              (fun a => a + c) := rfl

theorem addMat_composite_shift (c : ℚ) (pb gb : List (List ℚ)) (mb : List ℚ) :
    addMat (bmulRow (pb.map (List.map (fun a => a + c))) mb)
        (bmulRow (gb.map (List.map (fun a => a + c))) (oneSubRow mb))
      = (addMat (bmulRow pb mb) (bmulRow gb (oneSubRow mb))).map
          (List.map (fun a => a + c)) := by
  induction pb generalizing gb mb with
  | nil => rfl
  | cons x xs ih =>
    cases gb with
    | nil =>
      cases mb with
      | nil => rfl
      | cons mv ms => rfl
    | cons y ys =>
      cases mb with
      | nil => rfl
      | cons mv ms =>
        have hhead := addVec_scale_shift c mv (1 - mv) (by ring) x y
        have htail := ih ys ms
        calc addMat (bmulRow ((x :: xs).map (List.map (fun a => a + c))) (mv :: ms))
                (bmulRow ((y :: ys).map (List.map (fun a => a + c))) (oneSubRow (mv :: ms)))
            = addVec (rowScale mv (x.map (fun a => a + c)))
                  (rowScale (1 - mv) (y.map (fun a => a + c))) ::
                addMat (bmulRow (xs.map (List.map (fun a => a + c))) ms)
                  (bmulRow (ys.map (List.map (fun a => a + c))) (oneSubRow ms)) := rfl
          _ = ((addVec (rowScale mv x) (rowScale (1 - mv) y)).map (fun a => a + c)) ::
                (addMat (bmulRow xs ms) (bmulRow ys (oneSubRow ms))).map
                  (List.map (fun a => a + c)) := by rw [hhead, htail]
          _ = (addMat (bmulRow (x :: xs) (mv :: ms))
                (bmulRow (y :: ys) (oneSubRow (mv :: ms)))).map
                  (List.map (fun a => a + c)) := rfl

theorem composite_shift (c : ℚ) (p g : Tensor3) (m : Tensor2) :
    composite (tshift c p) (tshift c g) m = tshift c (composite p g m) := by
  induction p generalizing g m with
  | nil => rfl
  | cons x xs ih =>
    cases g with
    | nil =>
      cases m with
      | nil => rfl
      | cons mb ms => rfl
    | cons y ys =>
      cases m with
      | nil => rfl
      | cons mb ms =>
        have hhead := addMat_composite_shift c x y mb
        have htail := ih ys ms
        calc composite (tshift c (x :: xs)) (tshift c (y :: ys)) (mb :: ms)
            = addMat (bmulRow (x.map (List.map (fun a => a + c))) mb)
                  (bmulRow (y.map (List.map (fun a => a + c))) (oneSubRow mb)) ::
                composite (tshift c xs) (tshift c ys) ms := rfl
          _ = ((addMat (bmulRow x mb) (bmulRow y (oneSubRow mb))).map
                  (List.map (fun a => a + c))) ::
                tshift c (composite xs ys ms) := by rw [hhead, htail]
          _ = tshift c (composite (x :: xs) (y :: ys) (mb :: ms)) := rfl

end CompositeLemmas

theorem totalLoss_eq_spec (w : List (String × ℚ)) (r : LossRecord) :
    totalLoss w r = specTotalLoss w r := by
  induction r with
  | nil => rfl
  | cons kv rest ih =>
    simp only [totalLoss, specTotalLoss, List.filter_cons, List.map_cons, List.sum_cons] at ih ⊢
    by_cases hg : kv.2.isGradTensor
    · simp only [hg, if_true, List.map_cons, List.sum_cons]
      rw [ih]
      cases hlook : List.lookup kv.1 w <;> simp [hlook]
    · simp only [hg, if_false, Bool.false_eq_true]
      rw [ih]
      simp

/-- Appending a plain-scalar entry (such as `batch_size`) never changes the
aggregated total. -/
theorem specTotalLoss_append_scalar (w : List (String × ℚ)) (r : LossRecord)
    (k : String) (v : ℚ) :
    specTotalLoss w (r ++ [(k, LVal.scalar v)]) = specTotalLoss w r := by
  simp [specTotalLoss, LVal.isGradTensor]

/-- C1: in both training mode (`infer=False`) and inference mode
(`infer=True`), `run_model` stores under `mel_out` the composite
`predicted * mask + ground_truth * (1 - mask)` elementwise, with
`time_mel_masks` broadcast over the channel dimension; where the mask is 0
the output equals the ground-truth mel, where it is 1 it equals the model's
prediction. -/
theorem c1_run_model_mel_out_composite (model : Model) (gstep : ℕ) (sample : Sample)
    (b t c : ℕ)
    (hpT : shape3Eq (model.runTrain (trainCall sample gstep)).mel_out_postnet.data
      sample.mels = true)
    (hpI : shape3Eq (model.runInfer (inferCall sample)).mel_out.data sample.mels = true)
    (hm : maskFits sample.mels sample.time_mel_masks = true)
    (hb : b < sample.mels.length)
    (ht : t < (sample.mels.getD b []).length)
    (hc : c < ((sample.mels.getD b []).getD t []).length) :
    (at3 (run_model_train model gstep sample).2.mel_out.data b t c
        = at3 (model.runTrain (trainCall sample gstep)).mel_out_postnet.data b t c
            * at2 sample.time_mel_masks b t
          + at3 sample.mels b t c * (1 - at2 sample.time_mel_masks b t))
    ∧ (at3 (run_model_infer model sample).mel_out.data b t c
        = at3 (model.runInfer (inferCall sample)).mel_out.data b t c
            * at2 sample.time_mel_masks b t
          + at3 sample.mels b t c * (1 - at2 sample.time_mel_masks b t))
    ∧ (at2 sample.time_mel_masks b t = 0 →
        at3 (run_model_train model gstep sample).2.mel_out.data b t c
            = at3 sample.mels b t c
        ∧ at3 (run_model_infer model sample).mel_out.data b t c = at3 sample.mels b t c)
    ∧ (at2 sample.time_mel_masks b t = 1 →
        at3 (run_model_train model gstep sample).2.mel_out.data b t c
            = at3 (model.runTrain (trainCall sample gstep)).mel_out_postnet.data b t c
        ∧ at3 (run_model_infer model sample).mel_out.data b t c
            = at3 (model.runInfer (inferCall sample)).mel_out.data b t c) := by
  have hT : (run_model_train model gstep sample).2.mel_out.data
      = composite (model.runTrain (trainCall sample gstep)).mel_out_postnet.data
          sample.mels sample.time_mel_masks := rfl
  have hI : (run_model_infer model sample).mel_out.data
      = composite (model.runInfer (inferCall sample)).mel_out.data
          sample.mels sample.time_mel_masks := rfl
  rw [hT, hI]
  have e1 := at3_composite _ sample.mels sample.time_mel_masks b t c hpT hm hb ht hc
  have e2 := at3_composite _ sample.mels sample.time_mel_masks b t c hpI hm hb ht hc
  refine ⟨e1, e2, ?_, ?_⟩
  · intro h0
    rw [e1, e2, h0]
    constructor <;> ring
  · intro h1
    rw [e1, e2, h1]
    constructor <;> ring

theorem c1_witness :
    at2 exSample.time_mel_masks 0 1 = 1 ∧
    at3 (run_model_train exModel 0 exSample).2.mel_out.data 0 1 0
      = at3 (exModel.runTrain (trainCall exSample 0)).mel_out_postnet.data 0 1 0 ∧
    at3 (run_model_train exModel 0 exSample).2.mel_out.data 0 1 0 = 9 := by
  refine ⟨by decide, ?_, ?_⟩
  · exact ((c1_run_model_mel_out_composite exModel 0 exSample 0 1 0 (by decide) (by decide)
      (by decide) (by decide) (by decide) (by decide)).2.2.2 (by decide)).1
  · rw [((c1_run_model_mel_out_composite exModel 0 exSample 0 1 0 (by decide) (by decide)
      (by decide) (by decide) (by decide) (by decide)).2.2.2 (by decide)).1]
    decide

/-- C2: the training branch of `run_model` records, for each stage (decoder
and postnet), a mel-reconstruction loss between `predicted * mask` and
`ground_truth * mask`; when the edit mask is zero everywhere each stage's
loss equals the loss of ground truth against ground truth, i.e. zero,
regardless of the model's prediction. -/
theorem c2_masked_loss_restriction (model : Model) (gstep : ℕ) (sample : Sample) :
    (run_model_train model gstep sample).1 =
      [("mel_decoder", LVal.tensor
          (melLossVal
            (bmul (model.runTrain (trainCall sample gstep)).mel_out_decoder.data
              sample.time_mel_masks)
            (bmul sample.mels sample.time_mel_masks))
          (model.runTrain (trainCall sample gstep)).mel_out_decoder.requiresGrad),
       ("mel_postnet", LVal.tensor
          (melLossVal
            (bmul (model.runTrain (trainCall sample gstep)).mel_out_postnet.data
              sample.time_mel_masks)
            (bmul sample.mels sample.time_mel_masks))
          (model.runTrain (trainCall sample gstep)).mel_out_postnet.requiresGrad)]
    ∧ (allZero2 sample.time_mel_masks = true →
        ∀ kv ∈ (run_model_train model gstep sample).1,
          kv.2.value
            = melLossVal (bmul sample.mels sample.time_mel_masks)
                (bmul sample.mels sample.time_mel_masks)
          ∧ kv.2.value = 0) := by
  have hrec : (run_model_train model gstep sample).1 =
      [("mel_decoder", LVal.tensor
          (melLossVal
            (bmul (model.runTrain (trainCall sample gstep)).mel_out_decoder.data
              sample.time_mel_masks)
            (bmul sample.mels sample.time_mel_masks))
          (model.runTrain (trainCall sample gstep)).mel_out_decoder.requiresGrad),
       ("mel_postnet", LVal.tensor
          (melLossVal
            (bmul (model.runTrain (trainCall sample gstep)).mel_out_postnet.data
              sample.time_mel_masks)
            (bmul sample.mels sample.time_mel_masks))
          (model.runTrain (trainCall sample gstep)).mel_out_postnet.requiresGrad)] := rfl
  refine ⟨hrec, ?_⟩
  intro hz kv hkv
  have hgt : melLossVal (bmul sample.mels sample.time_mel_masks)
      (bmul sample.mels sample.time_mel_masks) = 0 :=
    melLossVal_eq_zero (sse_self _)
  have hdecv : melLossVal
      (bmul (model.runTrain (trainCall sample gstep)).mel_out_decoder.data
        sample.time_mel_masks)
      (bmul sample.mels sample.time_mel_masks) = 0 :=
    melLossVal_eq_zero (sse_allZero (mem_bmul_zero hz) (mem_bmul_zero hz))
  have hpostv : melLossVal
      (bmul (model.runTrain (trainCall sample gstep)).mel_out_postnet.data
        sample.time_mel_masks)
      (bmul sample.mels sample.time_mel_masks) = 0 :=
    melLossVal_eq_zero (sse_allZero (mem_bmul_zero hz) (mem_bmul_zero hz))
  rw [hrec] at hkv
  rcases List.mem_cons.mp hkv with h | h
  · subst h
    simp only [LVal.value]
    rw [hdecv, hgt]
    exact ⟨rfl, rfl⟩
  · rcases List.mem_cons.mp h with h2 | h2
    · subst h2
      simp only [LVal.value]
      rw [hpostv, hgt]
      exact ⟨rfl, rfl⟩
    · exact absurd h2 (List.not_mem_nil _)

theorem c2_witness :
    allZero2 exZeroSample.time_mel_masks = true ∧
    LVal.value (LVal.tensor (melLossVal
        (bmul (exModel.runTrain (trainCall exZeroSample 0)).mel_out_decoder.data
          exZeroSample.time_mel_masks)
        (bmul exZeroSample.mels exZeroSample.time_mel_masks)) true) = 0 := by
  refine ⟨by decide, ?_⟩
  have h := c2_masked_loss_restriction exModel 0 exZeroSample
  have hm : ("mel_decoder", LVal.tensor (melLossVal
      (bmul (exModel.runTrain (trainCall exZeroSample 0)).mel_out_decoder.data
        exZeroSample.time_mel_masks)
      (bmul exZeroSample.mels exZeroSample.time_mel_masks)) true)
      ∈ (run_model_train exModel 0 exZeroSample).1 := by
    rw [h.1]
    exact List.mem_cons_self _ _
  exact (h.2 (by decide) _ hm).2

/-- C3: `_training_step` returns as total loss exactly the weighted sum
(default weight 1) of the gradient-tracking tensor entries of the loss
record; non-gradient entries are excluded from the sum but retained in the
returned record (which also gains `batch_size`); on the spec's example record
the aggregation yields 8 with `c` excluded. -/
theorem c3_training_step_aggregation (model : Model) (gstep : ℕ) (sample : Sample) :
    (trainingStep model gstep sample = Except.ok
        (specTotalLoss [] (run_model_train model gstep sample).1,
         (run_model_train model gstep sample).1
           ++ [("batch_size", LVal.scalar (sample.txt_tokens.length : ℚ))]))
    ∧ specTotalLoss []
        ((run_model_train model gstep sample).1
          ++ [("batch_size", LVal.scalar (sample.txt_tokens.length : ℚ))])
        = specTotalLoss [] (run_model_train model gstep sample).1
    ∧ specTotalLoss [("a", 1), ("b", 2)]
        [("a", LVal.tensor 2 true), ("b", LVal.tensor 3 true), ("c", LVal.tensor 5 false)] = 8
    ∧ specTotalLoss [("a", 1), ("b", 2)]
        [("a", LVal.tensor 2 true), ("b", LVal.tensor 3 true)] = 8 := by
  refine ⟨?_, specTotalLoss_append_scalar _ _ _ _, ?_, ?_⟩
  · have h0 : trainingStep model gstep sample = Except.ok
        (totalLoss [] (run_model_train model gstep sample).1,
         (run_model_train model gstep sample).1
           ++ [("batch_size", LVal.scalar (sample.txt_tokens.length : ℚ))]) := rfl
    rw [h0, totalLoss_eq_spec]
  · show ((1 : ℚ) * 2 + ((2 : ℚ) * 3 + ((0 : ℚ) + 0))) = 8
    norm_num
  · show ((1 : ℚ) * 2 + ((2 : ℚ) * 3 + 0)) = 8
    norm_num

/-- C4 (counterexample to the claim as stated): with a frozen model no loss
entry tracks gradients, yet `_training_step` does not raise — it silently
returns total loss 0. -/
theorem c4_counterexample :
    ((run_model_train exNoGradModel 0 exSample).1.all
        (fun kv => !kv.2.isGradTensor)) = true
    ∧ trainingStep exNoGradModel 0 exSample
        = Except.ok (0, (run_model_train exNoGradModel 0 exSample).1
            ++ [("batch_size", LVal.scalar ((exSample.txt_tokens.length : ℚ)))]) := by
  exact ⟨by decide, rfl⟩

/-- C4 (amended): if the loss record produced for a training batch contains
no tensor-valued entry with gradient tracking, `_training_step` silently
returns 0 as the total differentiable loss (Python's `sum` of an empty
generator); no error is surfaced. -/
theorem c4_no_grad_silent_zero (model : Model) (gstep : ℕ) (sample : Sample)
    (h : ∀ kv ∈ (run_model_train model gstep sample).1, kv.2.isGradTensor = false) :
    trainingStep model gstep sample
      = Except.ok (0, (run_model_train model gstep sample).1
          ++ [("batch_size", LVal.scalar (sample.txt_tokens.length : ℚ))]) := by
  have hfil : (run_model_train model gstep sample).1.filter
      (fun kv => kv.2.isGradTensor) = [] :=
    List.filter_eq_nil_iff.mpr (fun kv hkv => by simp [h kv hkv])
  have hz : totalLoss [] (run_model_train model gstep sample).1 = 0 := by
    unfold totalLoss
    rw [hfil]
    rfl
  have h0 : trainingStep model gstep sample = Except.ok
      (totalLoss [] (run_model_train model gstep sample).1,
       (run_model_train model gstep sample).1
         ++ [("batch_size", LVal.scalar (sample.txt_tokens.length : ℚ))]) := rfl
  rw [h0, hz]

theorem c4_witness :
    trainingStep exNoGradModel 0 exSample
      = Except.ok (0, (run_model_train exNoGradModel 0 exSample).1
          ++ [("batch_size", LVal.scalar ((exSample.txt_tokens.length : ℚ)))]) :=
  c4_no_grad_silent_zero exNoGradModel 0 exSample (by decide)

/-- C5: the compositing rule satisfies the identity laws — an all-zero mask
returns the ground truth exactly, an all-one mask returns the prediction
exactly, and the operation is affine: shifting both inputs by a constant
shifts the composite by that constant. -/
theorem c5_composite_identity_laws (p g : Tensor3) (m : Tensor2)
    (h1 : shape3Eq p g = true) (h2 : maskFits g m = true) :
    (allZero2 m = true → composite p g m = g)
    ∧ (allOne2 m = true → composite p g m = p)
    ∧ ∀ c : ℚ, composite (tshift c p) (tshift c g) m = tshift c (composite p g m) :=
  ⟨fun hz => composite_allZero h1 h2 hz,
   fun ho => composite_allOne h1 h2 ho,
   fun c => composite_shift c p g m⟩

theorem specTotalLoss_append (w : List (String × ℚ)) (a b : LossRecord) :
    specTotalLoss w (a ++ b) = specTotalLoss w a + specTotalLoss w b := by
  simp [specTotalLoss]

theorem specTotalLoss_append_nongrad (w : List (String × ℚ)) (r s : LossRecord)
    (h : ∀ kv ∈ s, kv.2.isGradTensor = false) :
    specTotalLoss w (r ++ s) = specTotalLoss w r := by
  rw [specTotalLoss_append]
  have hs : specTotalLoss w s = 0 := by
    unfold specTotalLoss
    have : ∀ kv ∈ s, (if kv.2.isGradTensor then ((w.lookup kv.1).getD 1) * kv.2.value
        else 0) = 0 := by
      intro kv hkv
      simp [h kv hkv]
    rw [List.map_eq_map_iff.mpr (by intro kv hkv; rw [this kv hkv])]
    simp
  rw [hs, add_zero]

/-- C6: `test_step` asserts batch size 1 — when the text-token tensor's
first dimension is not 1 it fails with the assertion error before any model
invocation (the outcome is the same for every model); with batch size 1 the
assertion does not fire and the step proceeds to a normal result. -/
theorem c6_test_step_batch_size (env : TestEnv) (sample : Sample) (bidx : ℕ) :
    (sample.txt_tokens.length ≠ 1 →
      ∀ model : Model, test_step env model sample bidx
        = Except.error "only support batch_size=1 in inference")
    ∧ (sample.txt_tokens.length = 1 →
      ∀ model : Model, env.save_attn = false →
        sample.text ≠ [] → sample.item_name ≠ [] → sample.mels ≠ [] →
        (run_model_infer model sample).mel_out.data ≠ [] → sample.mel2ph ≠ [] →
        ∃ r, test_step env model sample bidx = Except.ok r) := by
  constructor
  · intro hlen model
    simp only [test_step, hlen, if_false]
  · intro hlen model hattn htext hitem hmels hpred hmel2ph
    obtain ⟨t0, ts, ht⟩ := List.exists_cons_of_ne_nil htext
    obtain ⟨i0, irest, hi⟩ := List.exists_cons_of_ne_nil hitem
    obtain ⟨m0, mrest, hmm⟩ := List.exists_cons_of_ne_nil hmels
    obtain ⟨p0, prest, hp⟩ := List.exists_cons_of_ne_nil hpred
    obtain ⟨q0, qrest, hq⟩ := List.exists_cons_of_ne_nil hmel2ph
    obtain ⟨k0, krest, hk⟩ : ∃ a l, sample.txt_tokens = a :: l := by
      refine List.exists_cons_of_ne_nil ?_
      intro hnil
      rw [hnil] at hlen
      simp at hlen
    unfold test_step
    rw [if_pos hlen]
    simp only [ht, hi, hk, hmm, hp, hq, List.head?_cons, hattn, Bool.false_eq_true,
      false_and, if_false]
    exact ⟨_, rfl⟩

/-- C7: the learning-rate schedule advances in units of accumulated steps —
after `n` raw post-optimization calls with accumulation factor `k` its
position is exactly `⌊n / k⌋`, each call either leaves the position or
advances it by one, and it advances at call `i` exactly when `k` divides
`i`, i.e. once per `k` raw optimizer calls. -/
theorem c7_scheduler_accumulated_steps (k n : ℕ) (hk : 0 < k) :
    schedAfter k n = n / k
    ∧ (∀ i : ℕ, schedAfter k (i + 1) = schedAfter k i + 1
        ∨ schedAfter k (i + 1) = schedAfter k i)
    ∧ ∀ i : ℕ, schedAfter k (i + 1) = schedAfter k i + 1 ↔ k ∣ (i + 1) := by
  have hAll : ∀ m, schedAfter k m = m / k := by
    intro m
    cases m with
    | zero => simp [schedAfter]
    | succ n => rfl
  refine ⟨hAll n, ?_, ?_⟩
  · intro i
    rw [hAll, hAll, Nat.succ_div]
    by_cases hd : k ∣ (i + 1) <;> simp [hd]
  · intro i
    rw [hAll, hAll, Nat.succ_div]
    by_cases hd : k ∣ (i + 1) <;> simp [hd]

theorem c7_witness :
    0 < 4 ∧ schedAfter 4 10 = 10 / 4 ∧ schedAfter 4 (3 + 1) = schedAfter 4 3 + 1 :=
  ⟨by decide, (c7_scheduler_accumulated_steps 4 10 (by decide)).1,
   ((c7_scheduler_accumulated_steps 4 10 (by decide)).2.2 3).mpr (by decide)⟩

/-- C8: `get_attn_stats` derives the masks from batch metadata (source
padding = token id 0, target padding = zero absolute channel sum, segment =
token id equal to the segment index), uses slope `text_length / mel_length`
per row, invokes the three external metric functions, and appends exactly
three batch-averaged, gradient-free entries to the logging record; such
entries contribute nothing to the differentiable-loss aggregation. -/
theorem c8_attn_stats_record (metrics : AttnMetrics) (seg_idx : ℤ) (attn : Tensor3)
    (sample : Sample) (log : LossRecord) (pfx : String) :
    get_attn_stats metrics seg_idx attn sample log pfx
      = log ++
        [(pfx ++ "fr", LVal.tensor (meanQ (metrics.get_focus_rate attn
            (sample.txt_tokens.map (List.map (fun t => t == 0)))
            (sample.mels.map (List.map (fun row => (row.map (fun v => |v|)).sum == 0)))))
            false),
         (pfx ++ "pcr", LVal.tensor (meanQ (metrics.get_phone_coverage_rate attn
            (sample.txt_tokens.map (List.map (fun t => t == 0)))
            (sample.txt_tokens.map (List.map (fun t => t == seg_idx)))
            (sample.mels.map (List.map (fun row => (row.map (fun v => |v|)).sum == 0)))))
            false),
         (pfx ++ "dfr", LVal.tensor (meanQ (metrics.get_diagonal_focus_rate attn
            (List.zipWith (fun a b => a / b) sample.txt_lengths sample.mel_lengths)
            sample.mel_lengths
            (sample.txt_tokens.map (List.map (fun t => t == 0)))
            (sample.mels.map (List.map (fun row => (row.map (fun v => |v|)).sum == 0)))).1)
            false)]
    ∧ ∀ w, specTotalLoss w (get_attn_stats metrics seg_idx attn sample log pfx)
        = specTotalLoss w log := by
  constructor
  · rfl
  · intro w
    exact specTotalLoss_append_nongrad w log _ (by
      intro kv hkv
      simp only [List.mem_cons, List.not_mem_nil, or_false] at hkv
      rcases hkv with h | h | h <;> subst h <;> rfl)

theorem c5_witness :
    allZero2 [[(0 : ℚ), 0]] = true ∧
    composite [[[2], [3]]] [[[5], [7]]] [[(0 : ℚ), 0]] = [[[5], [7]]] :=
  ⟨by decide,
   (c5_composite_identity_laws [[[2], [3]]] [[[5], [7]]] [[(0 : ℚ), 0]]
      (by decide) (by decide)).1 (by decide)⟩

section StringLemmas

theorem pyReplaceChar_cons (c : Char) (rep : List Char) (a : Char) (s : List Char) :
    pyReplaceChar c rep (a :: s) = (if a = c then rep else [a]) ++ pyReplaceChar c rep s :=
  rfl

theorem mem_pyReplaceChar {c : Char} {rep s : List Char} :
    ∀ x ∈ pyReplaceChar c rep s, x ∈ rep ∨ x ∈ s := by
  induction s with
  | nil => intro x hx; exact absurd hx (List.not_mem_nil x)
  | cons a as ih =>
    intro x hx
    rw [pyReplaceChar_cons] at hx
    rcases List.mem_append.mp hx with h | h
    · by_cases hac : a = c
      · rw [if_pos hac] at h
        exact Or.inl h
      · rw [if_neg hac] at h
        simp only [List.mem_singleton] at h
        exact Or.inr (h ▸ List.mem_cons_self a as)
    · rcases ih x h with h2 | h2
      · exact Or.inl h2
      · exact Or.inr (List.mem_cons_of_mem _ h2)

theorem not_mem_pyReplaceChar {c : Char} {rep : List Char} (hc : c ∉ rep)
    (s : List Char) : c ∉ pyReplaceChar c rep s := by
  induction s with
  | nil => exact List.not_mem_nil c
  | cons a as ih =>
    rw [pyReplaceChar_cons]
    intro hx
    rcases List.mem_append.mp hx with h | h
    · by_cases hac : a = c
      · rw [if_pos hac] at h
        exact hc h
      · rw [if_neg hac] at h
        simp only [List.mem_singleton] at h
        exact hac h.symm
    · exact ih h

theorem pyReplaceChar_eq_self {c : Char} (rep : List Char) {s : List Char} (h : c ∉ s) :
    pyReplaceChar c rep s = s := by
  induction s with
  | nil => rfl
  | cons a as ih =>
    have ha : ¬ a = c := fun hac => h (by rw [← hac]; exact List.mem_cons_self a as)
    rw [pyReplaceChar_cons, if_neg ha, ih (fun hm => h (List.mem_cons_of_mem _ hm))]
    rfl

theorem pyReplaceChar_append (c : Char) (rep s t : List Char) :
    pyReplaceChar c rep (s ++ t) = pyReplaceChar c rep s ++ pyReplaceChar c rep t :=
  List.flatMap_append s t _

theorem formatS_cons_ne (rep : List Char) (a : Char) (s : List Char) (h : ¬ a = '%') :
    formatS rep (a :: s) = a :: formatS rep s := by
  simp [formatS, h]

theorem mem_formatS {rep s : List Char} : ∀ x ∈ formatS rep s, x ∈ rep ∨ x ∈ s := by
  induction s with
  | nil => intro x hx; exact absurd hx (List.not_mem_nil x)
  | cons a as ih =>
    intro x hx
    by_cases ha : a = '%'
    · subst ha
      cases as with
      | nil =>
        simp only [formatS] at hx
        exact Or.inr hx
      | cons b bs =>
        by_cases hb : b = 's'
        · subst hb
          simp only [formatS, if_pos rfl] at hx
          rcases List.mem_append.mp hx with h | h
          · exact Or.inl h
          · exact Or.inr (List.mem_cons_of_mem _ (List.mem_cons_of_mem _ h))
        · have hfx : formatS rep ('%' :: b :: bs) = '%' :: formatS rep (b :: bs) := by
            simp [formatS, hb]
          rw [hfx] at hx
          rcases List.mem_cons.mp hx with h | h
          · exact Or.inr (h ▸ List.mem_cons_self _ _)
          · rcases ih x h with h2 | h2
            · exact Or.inl h2
            · exact Or.inr (List.mem_cons_of_mem _ h2)
    · rw [formatS_cons_ne rep a as ha] at hx
      rcases List.mem_cons.mp hx with h | h
      · exact Or.inr (h ▸ List.mem_cons_self _ _)
      · rcases ih x h with h2 | h2
        · exact Or.inl h2
        · exact Or.inr (List.mem_cons_of_mem _ h2)

theorem formatS_append_of_percent_free {a : List Char} (rep b : List Char) (h : '%' ∉ a) :
    formatS rep (a ++ b) = a ++ formatS rep b := by
  induction a with
  | nil => rfl
  | cons x xs ih =>
    have hx : ¬ x = '%' := fun hh => h (by rw [← hh]; exact List.mem_cons_self x xs)
    rw [List.cons_append, formatS_cons_ne rep x _ hx,
      ih (fun hm => h (List.mem_cons_of_mem _ hm)), List.cons_append]

theorem natDigitsVal_lt10 (fuel : ℕ) : ∀ n, ∀ d ∈ natDigitsVal fuel n, d < 10 := by
  induction fuel with
  | zero => intro n d hd; exact absurd hd (List.not_mem_nil d)
  | succ f ih =>
    intro n d hd
    by_cases h : n < 10
    · simp only [natDigitsVal, if_pos h, List.mem_singleton] at hd
      omega
    · simp only [natDigitsVal, if_neg h] at hd
      rcases List.mem_append.mp hd with h2 | h2
      · exact ih _ d h2
      · simp only [List.mem_singleton] at h2
        omega

theorem fromDigitsVal_append_digit (l : List ℕ) (d : ℕ) :
    fromDigitsVal (l ++ [d]) = 10 * fromDigitsVal l + d := by
  simp [fromDigitsVal, List.foldl_append]

theorem fromDigitsVal_natDigitsVal (fuel : ℕ) : ∀ n, n < 10 ^ fuel →
    fromDigitsVal (natDigitsVal fuel n) = n := by
  induction fuel with
  | zero =>
    intro n h
    have hn : n = 0 := by simpa using h
    subst hn
    rfl
  | succ f ih =>
    intro n h
    by_cases hn : n < 10
    · have h1 : natDigitsVal (f + 1) n = [n] := by simp [natDigitsVal, hn]
      rw [h1]
      show 10 * 0 + n = n
      omega
    · have h1 : natDigitsVal (f + 1) n = natDigitsVal f (n / 10) ++ [n % 10] := by
        simp [natDigitsVal, hn]
      have h2 : n / 10 < 10 ^ f := by
        rw [Nat.div_lt_iff_lt_mul (by norm_num)]
        have h3 : 10 ^ (f + 1) = 10 ^ f * 10 := pow_succ 10 f
        omega
      rw [h1, fromDigitsVal_append_digit, ih _ h2]
      omega

theorem n_lt_pow10 (n : ℕ) : n < 10 ^ (n + 1) := by
  calc n < 2 ^ n := Nat.lt_two_pow n
    _ ≤ 10 ^ n := Nat.pow_le_pow_left (by norm_num) n
    _ ≤ 10 ^ (n + 1) := Nat.pow_le_pow_right (by norm_num) (Nat.le_succ n)

theorem fromDigitsVal_natDigits (n : ℕ) : fromDigitsVal (natDigits n) = n :=
  fromDigitsVal_natDigitsVal _ n (n_lt_pow10 n)

theorem foldl_replicate_zero (k : ℕ) :
    List.foldl (fun acc d => 10 * acc + d) 0 (List.replicate k 0) = 0 := by
  induction k with
  | zero => rfl
  | succ m ih => simpa [List.replicate_succ] using ih

theorem fromDigitsVal_padded (k : ℕ) (l : List ℕ) :
    fromDigitsVal (List.replicate k 0 ++ l) = fromDigitsVal l := by
  simp [fromDigitsVal, List.foldl_append, foldl_replicate_zero]

theorem charToDigit_digitChar (d : ℕ) (h : d < 10) : charToDigit (digitChar d) = d := by
  interval_cases d <;> rfl

theorem digitChar_mem_digits (d : ℕ) : digitChar d ∈ ("0123456789".toList) := by
  rcases d with _ | _ | _ | _ | _ | _ | _ | _ | _ | d
  · decide
  · decide
  · decide
  · decide
  · decide
  · decide
  · decide
  · decide
  · decide
  · exact (by decide : ('9' : Char) ∈ "0123456789".toList)

theorem digits_ne_rbracket : ∀ x ∈ "0123456789".toList, ¬ x = ']' := by decide

theorem digits_ne_space : ∀ x ∈ "0123456789".toList, ¬ x = ' ' := by decide

theorem digits_ne_percent : ∀ x ∈ "0123456789".toList, ¬ x = '%' := by decide

theorem mem_pad6Chars (n : ℕ) : ∀ x ∈ pad6Chars n, x ∈ "0123456789".toList := by
  intro x hx
  simp only [pad6Chars, List.mem_map] at hx
  obtain ⟨d, _, hxd⟩ := hx
  exact hxd ▸ digitChar_mem_digits d

theorem takeWhile_until_rbracket (l r : List Char) (h : ∀ x ∈ l, ¬ x = ']') :
    (l ++ ']' :: r).takeWhile (fun x => !(x == ']')) = l := by
  induction l with
  | nil => simp [List.takeWhile_cons]
  | cons a as ih =>
    have ha : ¬ a = ']' := h a (List.mem_cons_self a as)
    have hrest := ih (fun x hx => h x (List.mem_cons_of_mem _ hx))
    simp only [List.cons_append, List.takeWhile_cons]
    simp [ha, hrest]

theorem map_charToDigit_digitChar (l : List ℕ) (h : ∀ d ∈ l, d < 10) :
    (l.map digitChar).map charToDigit = l := by
  induction l with
  | nil => rfl
  | cons d ds ih =>
    simp only [List.map_cons, List.cons.injEq]
    exact ⟨charToDigit_digitChar d (h d (List.mem_cons_self d ds)),
      ih (fun x hx => h x (List.mem_cons_of_mem _ hx))⟩

theorem pad6_digits_lt10 (n : ℕ) :
    ∀ d ∈ (List.replicate (6 - (natDigits n).length) 0 ++ natDigits n), d < 10 := by
  intro d hd
  rcases List.mem_append.mp hd with h | h
  · have := List.eq_of_mem_replicate h
    omega
  · exact natDigitsVal_lt10 _ _ d h

theorem recover_pad6 (n : ℕ) : fromDigitsVal ((pad6Chars n).map charToDigit) = n := by
  unfold pad6Chars
  rw [map_charToDigit_digitChar _ (pad6_digits_lt10 n), fromDigitsVal_padded,
    fromDigitsVal_natDigits]

theorem recover_batch_index (i : ℕ) (T : List Char) :
    fromDigitsVal (((('[' :: pad6Chars i ++ ']' :: T).drop 1).takeWhile
      (fun x => !(x == ']'))).map charToDigit) = i := by
  have hd : ('[' :: pad6Chars i ++ ']' :: T).drop 1 = pad6Chars i ++ ']' :: T := by
    simp
  rw [hd, takeWhile_until_rbracket _ _
    (fun x hx => digits_ne_rbracket x (mem_pad6Chars i x hx))]
  exact recover_pad6 i

theorem baseFn_decomp (bidx : ℕ) (name : List Char) (text : Option (List Char)) :
    baseFn bidx name text
      = '[' :: pad6Chars bidx ++ ']' ::
          pyReplaceChar ' ' ['_']
            ('[' :: pyReplaceChar '%' ['_'] name ++ (']' :: '[' :: '%' :: 's' :: [']'])
              ++ (match text with
                  | some t => (pyReplaceChar ':' ("$3A".toList) t).take 80
                  | none => [])) := by
  have hsp : (' ' : Char) ∉ pad6Chars bidx :=
    fun hm => digits_ne_space ' ' (mem_pad6Chars bidx ' ' hm) rfl
  have h1 : baseFnTemplate bidx name text
      = '[' :: (pad6Chars bidx ++ ']' ::
          ('[' :: pyReplaceChar '%' ['_'] name ++ (']' :: '[' :: '%' :: 's' :: [']'])
            ++ (match text with
                | some t => (pyReplaceChar ':' ("$3A".toList) t).take 80
                | none => []))) := by
    simp [baseFnTemplate]
  unfold baseFn
  rw [h1, pyReplaceChar_cons, if_neg (by decide), pyReplaceChar_append,
    pyReplaceChar_eq_self _ hsp, pyReplaceChar_cons, if_neg (by decide)]
  simp

theorem formatS_baseFn_decomp (rep : List Char) (bidx : ℕ) (name : List Char)
    (text : Option (List Char)) :
    formatS rep (baseFn bidx name text)
      = '[' :: pad6Chars bidx ++ ']' ::
          formatS rep (pyReplaceChar ' ' ['_']
            ('[' :: pyReplaceChar '%' ['_'] name ++ (']' :: '[' :: '%' :: 's' :: [']'])
              ++ (match text with
                  | some t => (pyReplaceChar ':' ("$3A".toList) t).take 80
                  | none => []))) := by
  rw [baseFn_decomp]
  have hassoc : ∀ Y : List Char, '[' :: pad6Chars bidx ++ ']' :: Y
      = ('[' :: pad6Chars bidx ++ [']']) ++ Y := by
    intro Y
    simp
  rw [hassoc, formatS_append_of_percent_free rep _ ?_, ← hassoc]
  intro hm
  rcases List.mem_cons.mp hm with h | h
  · exact absurd h.symm (by decide)
  · rcases List.mem_append.mp h with h2 | h2
    · exact digits_ne_percent '%' (mem_pad6Chars bidx '%' h2) rfl
    · simp only [List.mem_singleton] at h2
      exact absurd h2.symm (by decide)

theorem formatS_baseFn_inj (rep : List Char) {i j : ℕ} (name : List Char)
    (text : Option (List Char))
    (h : formatS rep (baseFn i name text) = formatS rep (baseFn j name text)) :
    i = j := by
  rw [formatS_baseFn_decomp, formatS_baseFn_decomp] at h
  have h1 := congrArg (fun s : List Char =>
    fromDigitsVal (((s.drop 1).takeWhile (fun x => !(x == ']'))).map charToDigit)) h
  simpa only [recover_batch_index] using h1

theorem no_space_formatS_baseFn {rep : List Char} (h : (' ' : Char) ∉ rep)
    (bidx : ℕ) (name : List Char) (text : Option (List Char)) :
    (' ' : Char) ∉ formatS rep (baseFn bidx name text) := by
  intro hsp
  rcases mem_formatS _ hsp with h1 | h1
  · exact h h1
  · exact not_mem_pyReplaceChar (by decide) (baseFnTemplate bidx name text) h1

end StringLemmas

/-- Normal form of a successful `test_step`: under the batch-size-1
assertion and well-formed single-item fields, the step returns the
description record and the submitted jobs. -/
theorem test_step_ok_form (env : TestEnv) (model : Model) (sample : Sample) (bidx : ℕ)
    (text : Option (List Char)) (name : List Char) (tokens : List ℤ)
    (melGt melPred : List (List ℚ)) (m2p : List ℤ)
    (hlen : sample.txt_tokens.length = 1)
    (hattn : env.save_attn = false)
    (htext : sample.text.head? = some text)
    (hname : sample.item_name.head? = some name)
    (htok : sample.txt_tokens.head? = some tokens)
    (hmel : sample.mels.head? = some melGt)
    (hpred : (run_model_infer model sample).mel_out.data.head? = some melPred)
    (hm2p : sample.mel2ph.head? = some m2p) :
    test_step env model sample bidx = Except.ok
      (⟨name, text, env.decode tokens, formatS ['P'] (baseFn bidx name text),
        formatS ['G'] (baseFn bidx name text)⟩,
       [⟨env.vocoder melPred, melPred, formatS ['P'] (baseFn bidx name text),
          env.gen_dir, env.decodeStrip tokens, none⟩]
        ++ (if env.save_gt then
            [⟨env.vocoder melGt, melGt, formatS ['G'] (baseFn bidx name text),
              env.gen_dir, env.decodeStrip tokens, some m2p⟩]
            else [])) := by
  unfold test_step
  rw [if_pos hlen]
  simp only [htext, hname, htok, hmel, hpred, hm2p, hattn, Bool.false_eq_true, false_and,
    if_false]
  by_cases hsg : env.save_gt
  · simp [hsg]
  · simp [hsg]

/-- C9: the filenames built by `test_step` sanitize `%` in the item name and
`:` in the raw text, contain no spaces, embed the zero-padded batch index so
that distinct batch indices give distinct output names, and mark the
predicted artifact's job with `P` and (when ground-truth saving is enabled)
the ground-truth artifact's job with `G`. -/
theorem c9_filename_sanitize_unique (env : TestEnv) (model : Model) (sample : Sample)
    (bidx bidx2 : ℕ) (t name : List Char) (tokens : List ℤ)
    (melGt melPred : List (List ℚ)) (m2p : List ℤ)
    (hlen : sample.txt_tokens.length = 1)
    (hattn : env.save_attn = false)
    (htext : sample.text.head? = some (some t))
    (hname : sample.item_name.head? = some name)
    (htok : sample.txt_tokens.head? = some tokens)
    (hmel : sample.mels.head? = some melGt)
    (hpred : (run_model_infer model sample).mel_out.data.head? = some melPred)
    (hm2p : sample.mel2ph.head? = some m2p)
    (hne : bidx ≠ bidx2) :
    ((' ' : Char) ∉ formatS ['P'] (baseFn bidx name (some t)))
    ∧ ((' ' : Char) ∉ formatS ['G'] (baseFn bidx name (some t)))
    ∧ (('%' : Char) ∉ pyReplaceChar '%' ['_'] name)
    ∧ ((':' : Char) ∉ pyReplaceChar ':' ("$3A".toList) t)
    ∧ formatS ['P'] (baseFn bidx name (some t))
        ≠ formatS ['P'] (baseFn bidx2 name (some t))
    ∧ test_step env model sample bidx = Except.ok
        (⟨name, some t, env.decode tokens, formatS ['P'] (baseFn bidx name (some t)),
          formatS ['G'] (baseFn bidx name (some t))⟩,
         [⟨env.vocoder melPred, melPred, formatS ['P'] (baseFn bidx name (some t)),
            env.gen_dir, env.decodeStrip tokens, none⟩]
          ++ (if env.save_gt then
              [⟨env.vocoder melGt, melGt, formatS ['G'] (baseFn bidx name (some t)),
                env.gen_dir, env.decodeStrip tokens, some m2p⟩]
              else [])) := by
  refine ⟨no_space_formatS_baseFn (by decide) bidx name (some t),
    no_space_formatS_baseFn (by decide) bidx name (some t),
    not_mem_pyReplaceChar (by decide) name,
    not_mem_pyReplaceChar (by decide) t,
    fun hEq => hne (formatS_baseFn_inj ['P'] name (some t) hEq),
    test_step_ok_form env model sample bidx (some t) name tokens melGt melPred m2p
      hlen hattn htext hname htok hmel hpred hm2p⟩

theorem c9_witness :
    ((' ' : Char) ∉ formatS ['P'] (baseFn 0 ("item1".toList) (some ("hi there".toList))))
    ∧ formatS ['P'] (baseFn 0 ("item1".toList) (some ("hi there".toList)))
        ≠ formatS ['P'] (baseFn 1 ("item1".toList) (some ("hi there".toList))) :=
  ⟨(c9_filename_sanitize_unique exEnv exModel exSample 0 1 ("hi there".toList)
      ("item1".toList) [5, 3] [[1], [1]]
      (addMat (bmulRow [[9], [9]] [0, 1]) (bmulRow [[1], [1]] (oneSubRow [0, 1]))) [1, 2]
      rfl rfl rfl rfl rfl rfl rfl rfl (by decide)).1,
   (c9_filename_sanitize_unique exEnv exModel exSample 0 1 ("hi there".toList)
      ("item1".toList) [5, 3] [[1], [1]]
      (addMat (bmulRow [[9], [9]] [0, 1]) (bmulRow [[1], [1]] (oneSubRow [0, 1]))) [1, 2]
      rfl rfl rfl rfl rfl rfl rfl rfl (by decide)).2.2.2.2.1⟩

/-- C10: the description record returned by `test_step` always carries both
filename stems — `wav_fn_pred` (marker `P`) and `wav_fn_gt` (marker `G`) —
even when ground-truth saving is disabled and no ground-truth job is
submitted (the job list then holds only the predicted-result job). -/
theorem c10_result_both_stems (env : TestEnv) (model : Model) (sample : Sample)
    (bidx : ℕ) (text : Option (List Char)) (name : List Char) (tokens : List ℤ)
    (melGt melPred : List (List ℚ)) (m2p : List ℤ)
    (hlen : sample.txt_tokens.length = 1)
    (hattn : env.save_attn = false)
    (hsg : env.save_gt = false)
    (htext : sample.text.head? = some text)
    (hname : sample.item_name.head? = some name)
    (htok : sample.txt_tokens.head? = some tokens)
    (hmel : sample.mels.head? = some melGt)
    (hpred : (run_model_infer model sample).mel_out.data.head? = some melPred)
    (hm2p : sample.mel2ph.head? = some m2p) :
    test_step env model sample bidx = Except.ok
      (⟨name, text, env.decode tokens, formatS ['P'] (baseFn bidx name text),
        formatS ['G'] (baseFn bidx name text)⟩,
       [⟨env.vocoder melPred, melPred, formatS ['P'] (baseFn bidx name text),
          env.gen_dir, env.decodeStrip tokens, none⟩]) := by
  rw [test_step_ok_form env model sample bidx text name tokens melGt melPred m2p
    hlen hattn htext hname htok hmel hpred hm2p]
  simp [hsg]

theorem c10_witness :
    test_step exEnv exModel exSample 0 = Except.ok
      (⟨"item1".toList, some ("hi there".toList), exEnv.decode [5, 3],
        formatS ['P'] (baseFn 0 ("item1".toList) (some ("hi there".toList))),
        formatS ['G'] (baseFn 0 ("item1".toList) (some ("hi there".toList)))⟩,
       [⟨exEnv.vocoder
            (addMat (bmulRow [[9], [9]] [0, 1]) (bmulRow [[1], [1]] (oneSubRow [0, 1]))),
          addMat (bmulRow [[9], [9]] [0, 1]) (bmulRow [[1], [1]] (oneSubRow [0, 1])),
          formatS ['P'] (baseFn 0 ("item1".toList) (some ("hi there".toList))),
          exEnv.gen_dir, exEnv.decodeStrip [5, 3], none⟩]) :=
  c10_result_both_stems exEnv exModel exSample 0 (some ("hi there".toList))
    ("item1".toList) [5, 3] [[1], [1]]
    (addMat (bmulRow [[9], [9]] [0, 1]) (bmulRow [[1], [1]] (oneSubRow [0, 1]))) [1, 2]
    rfl rfl rfl rfl rfl rfl rfl rfl rfl

theorem c6_witness :
    test_step exEnv exModel exSample2 0
      = Except.error "only support batch_size=1 in inference" :=
  (c6_test_step_batch_size exEnv exSample2 0).1 (by decide) exModel

end A3T
